import Mathlib

/-!
Verification of the ZIP-code geographic-file pipeline (`src/app.py`).

The pipeline is shallowly embedded: a table is a list of rows, a row is an
association list from column names to scalar values, and each stage of
`create_full_geographic_data` plus the app-level sampling/dissolve code is
translated into an executable Lean function that mirrors the corresponding
pandas/geopandas operations on this representation.
-/

namespace ZipApp

/-- A scalar cell value of the tabular data model.  Numbers are modelled by
`Int` (the claims only exercise integer data); `geo` is an opaque polygon
bag used for the geometry column (a set of primitive polygon pieces, so that
the dissolve union is concatenation); `null` is pandas NaN / missing. -/
inductive Value where
  | int (n : Int)
  | str (s : String)
  | geo (gs : List Nat)
  | null
deriving DecidableEq, Repr

/-- A row: an association list from column name to value. -/
abbrev Row := List (String × Value)

/-- Reading a cell: first matching column entry, NaN when absent
(mirrors pandas missing-data semantics for lookups used here). -/
def getVal (r : Row) (c : String) : Value :=
  match r.find? (fun p => p.1 = c) with
  | some p => p.2
  | none => .null

/-- Column assignment `df[c] = v` on one row: replaces the value at every
entry named `c` (the pipeline only assigns to columns that exist). -/
def setVal (r : Row) (c : String) (v : Value) : Row :=
  r.map (fun p => if p.1 = c then (c, v) else p)

/-- The input table: its schema (column names) and its rows. -/
structure DataFrame where
  columns : List String
  rows : List Row

def Value.isNull : Value → Bool
  | .null => true
  | _ => false

/-- A value a numeric pandas dtype can hold: a number or NaN. -/
def Value.isNumLike : Value → Bool
  | .int _ => true
  | .null => true
  | _ => false

/-- Python `str.zfill(w)` on the character list of a string: left-pad with
zeros up to width `w`, keeping a leading sign in front of the padding;
strings already at least `w` long are returned unchanged. -/
def zfillList (w : Nat) : List Char → List Char
  | [] => List.replicate w '0'
  | c :: rest =>
    if w ≤ rest.length + 1 then c :: rest
    else if c = '-' ∨ c = '+' then
      c :: (List.replicate (w - (rest.length + 1)) '0' ++ rest)
    else
      List.replicate (w - (rest.length + 1)) '0' ++ (c :: rest)

/-- Python `str.zfill(w)`. -/
def zfill (w : Nat) (s : String) : String :=
  String.mk (zfillList w s.data)

/-- Python `str(value)` as applied by `.astype(str)` to the cell values the
pipeline feeds it (integers and strings; NaN stringifies to "nan" but the
zipcode column was already stripped of nulls by `dropna`). -/
def pyStr : Value → String
  | .int n => toString n
  | .str s => s
  | .geo _ => "geom"
  | .null => "nan"

/-- Line 46 of `app.py` applied to one cell:
`df_clean[zipcode_column].astype(str).str.zfill(5)`. -/
def normalizeVal (v : Value) : Value :=
  .str (zfill 5 (pyStr v))

/-- A pandas aggregation keyword as used in `agg_dict`: `'first'` or `'sum'`. -/
inductive AggFunc where
  | first
  | sum
deriving DecidableEq, Repr

/-- Pandas addition of two cells as folded by `sum` with `skipna`:
numbers add, strings (object dtype) concatenate, NaN is skipped. -/
def Value.add : Value → Value → Value
  | .null, v => v
  | v, .null => v
  | .int a, .int b => .int (a + b)
  | .str a, .str b => .str (a ++ b)
  | .geo a, .geo b => .geo (a ++ b)
  | _, _ => .null

/-- Applying one aggregation keyword to the cells of one group:
`first` is the first non-null value, `sum` folds `Value.add` over the group
(an all-null or empty group sums to 0, as in pandas). -/
def applyAgg : AggFunc → List Value → Value
  | .first, vs => ((vs.filter (fun v => !v.isNull)).headD .null)
  | .sum, vs =>
    match vs.foldl Value.add .null with
    | .null => .int 0
    | v => v

/-- Embedding of `pd.api.types.is_numeric_dtype(df_clean[c])` (line 55).  A CSV column has
numeric dtype exactly when every one of its values is a number or NaN, and
`dropna` never changes a column dtype, so the check is evaluated over the
original table; the zipcode column was cast to `str` on line 46, so its
dtype is never numeric at this point. -/
def isNumericDtype (df : DataFrame) (zipc c : String) : Bool :=
  if c = zipc then false
  else df.rows.all (fun r => (getVal r c).isNumLike)

/-- The records surviving `df.dropna(subset=[zipcode_column, groupby_column])`
(line 45). -/
def survivors (df : DataFrame) (zipc grpc : String) : List Row :=
  df.rows.filter (fun r => !(getVal r zipc).isNull && !(getVal r grpc).isNull)

/-- The frame `df_clean` after lines 44-46: drop null-key records, then normalize the
zipcode column in place. -/
def cleanRows (df : DataFrame) (zipc grpc : String) : List Row :=
  (survivors df zipc grpc).map (fun r => setVal r zipc (normalizeVal (getVal r zipc)))

/-- The key list of `agg_dict` (lines 49-56): `columns_to_aggregate` is the
retain-list without the grouping column, with the grouping column appended
back; the dict comprehension deduplicates repeated names and drops the
zipcode column (the numeric-override loop can only re-insert the zipcode
column, whose dtype is `str` after line 46, so it never does). -/
def aggCols (zipc grpc : String) (includeCols : List String) : List String :=
  let cta0 := includeCols.filter (fun c => c ≠ grpc)
  let cta := if grpc ∈ cta0 then cta0 else cta0 ++ [grpc]
  cta.dedup.filter (fun c => c ≠ zipc)

/-- The reduction strategy chosen for one column before grouping:
numeric dtype reduces by sum, everything else by first value. -/
def colRule (df : DataFrame) (zipc c : String) : AggFunc :=
  if isNumericDtype df zipc c then .sum else .first

/-- The dict `agg_dict` (lines 53-56), as an ordered association list. -/
def buildAggDict (df : DataFrame) (zipc grpc : String) (includeCols : List String) :
    List (String × AggFunc) :=
  (aggCols zipc grpc includeCols).map (fun c => (c, colRule df zipc c))

/-- Embedding of `df_clean.groupby(zipcode_column).agg(agg_dict).reset_index()` (line 59):
one output row per distinct group key, carrying the key and one reduced
value per aggregated column.  (Pandas emits groups in sorted key order; no
property below depends on row order, so distinct keys are taken via
`List.dedup`.) -/
def groupbyAgg (rows : List Row) (key : String) (aggd : List (String × AggFunc)) : List Row :=
  ((rows.map (fun r => getVal r key)).dedup).map (fun k =>
    (key, k) :: aggd.map (fun cf =>
      (cf.1, applyAgg cf.2
        ((rows.filter (fun r => getVal r key == k)).map (fun r => getVal r cf.1)))))

/-- Embedding of `df_clean[[zipcode_column, groupby_column]].drop_duplicates()` (line 61). -/
def dropDupPairs (rows : List Row) (zipc grpc : String) : List Row :=
  (rows.map (fun r => [(zipc, getVal r zipc), (grpc, getVal r grpc)])).dedup

/-- The dataset-level failure modes of the pipeline: `st.stop()` on a missing
required column (line 42), and the Python `TypeError` raised on line 49 when
`include_columns` is `None` (iterating `None` in the list comprehension). -/
inductive PipeError where
  | schemaError
  | typeError
deriving DecidableEq, Repr

/-- Lines 40-61 of `create_full_geographic_data`: schema check, cleaning,
normalization and aggregation, producing `zip_data`. -/
def aggregate_zip_data (df : DataFrame) (zipc grpc : String)
    (includeCols? : Option (List String)) : Except PipeError (List Row) :=
  if zipc ∉ df.columns ∨ grpc ∉ df.columns then .error .schemaError
  else
    let clean := cleanRows df zipc grpc
    match includeCols? with
    | none => .error .typeError
    | some includeCols =>
      let aggd := buildAggDict df zipc grpc includeCols
      if aggd.isEmpty then .ok (dropDupPairs clean zipc grpc)
      else .ok (groupbyAgg clean zipc aggd)

/-- One row of the boundary table (`zcta_gdf`): its `ZCTA5CE20` code (already
a string, line 93) and its polygon geometry.  Only these two columns take
part in the claims; the provider is an external collaborator. -/
abbrev BRow := String × Value

/-- Embedding of the boundary filter on line 96: keep the boundary rows whose code is a member of the set of aggregated codes. -/
def filter_boundaries (zcta : List BRow) (codes : List Value) : List BRow :=
  zcta.filter (fun b => codes.contains (Value.str b.1))

/-- The rename of the zipcode column to the merge key name (line 91),
applied to one row. -/
def renameCol (r : Row) (a b : String) : Row :=
  r.map (fun p => if p.1 = a then (b, p.2) else p)

/-- Embedding of the left merge on line 99
(line 99): every left row pairs with each boundary row of equal code, or
survives alone with null geometry when no boundary matches. -/
def left_merge (zip_data : List Row) (zcta : List BRow) (key : String) : List Row :=
  zip_data.flatMap (fun r =>
    let ms := zcta.filter (fun b => Value.str b.1 == getVal r key)
    if ms.isEmpty then [r ++ [("geometry", Value.null)]]
    else ms.map (fun b => r ++ [("geometry", b.2)]))

/-- The function `create_full_geographic_data` end to end, with the boundary download
abstracted to the provider table `zcta` it yields: aggregation (lines
40-61), then the filter/rename/left-merge of lines 90-99. -/
def create_full_geographic_data (df : DataFrame) (zipc grpc : String)
    (includeCols? : Option (List String)) (zcta : List BRow) :
    Except PipeError (List Row) :=
  (aggregate_zip_data df zipc grpc includeCols?).map (fun zip_data =>
    let codes := zip_data.map (fun r => getVal r zipc)
    let merged := zip_data.map (fun r => renameCol r zipc "ZCTA5CE20")
    left_merge merged (filter_boundaries zcta codes) "ZCTA5CE20")

/-- Model of `np.random.choice` without replacement, with the random source made
explicit: `seed` supplies one draw per step, each draw selecting (mod the
remaining count) the next element, which is then removed from the pool. -/
def chooseNoReplace : List Nat → Nat → List Value → List Value
  | _, 0, _ => []
  | _, _ + 1, [] => []
  | seed, n + 1, x :: xs =>
    let i : Fin (x :: xs).length :=
      ⟨seed.headD 0 % (x :: xs).length, Nat.mod_lt _ (Nat.succ_pos xs.length)⟩
    (x :: xs).get i :: chooseNoReplace seed.tail n ((x :: xs).eraseIdx i.val)

/-- Lines 199-203: keep all distinct groups when there are at most 5 of
them, otherwise draw 5 without replacement. -/
def sampled_groups (seed : List Nat) (unique_groups : List Value) : List Value :=
  if unique_groups.length > 5 then chooseNoReplace seed 5 unique_groups
  else unique_groups

/-- The dissolve geometry union: combine every non-absent polygon of the
group; a group with no polygons at all keeps absent geometry. -/
def geoUnion (vs : List Value) : Value :=
  let polys := vs.filterMap (fun v => match v with | .geo g => some g | _ => none)
  if polys.isEmpty then .null else .geo polys.flatten

/-- The attribute columns `dissolve` aggregates: every column of the frame
except the dissolve key and the geometry column. -/
def dissolveCols (rows : List Row) (grpc : String) : List String :=
  ((rows.headD []).map Prod.fst).filter (fun c => c ≠ grpc && c ≠ "geometry")

/-- Embedding of the dissolve call on lines 211-212
(lines 211-212): one row per distinct grouping value, geometry unioned,
and `'sum'` applied uniformly to every other column. -/
def dissolve (grpc : String) (rows : List Row) : List Row :=
  ((rows.map (fun r => getVal r grpc)).dedup).map (fun k =>
    let grp := rows.filter (fun r => getVal r grpc == k)
    (grpc, k)
      :: ("geometry", geoUnion (grp.map (fun r => getVal r "geometry")))
      :: (dissolveCols rows grpc).map (fun c =>
            (c, applyAgg .sum (grp.map (fun r => getVal r c)))))

/-- The three exported artifacts of lines 171-174, all built from
`final_gdf`: the CSV attribute table (geometry column dropped), the GeoJSON
document (one feature per row, null geometry included), and the shapefile
rows. -/
structure Artifacts where
  attrTable : List Row
  geoDoc : List Row
  shapeRows : List Row
deriving DecidableEq, Repr

/-- Lines 171-174 as a function of the full enriched table. -/
def exportsOf (final : List Row) : Artifacts :=
  { attrTable := final.map (fun r => r.filter (fun p => p.1 ≠ "geometry"))
  , geoDoc := final
  , shapeRows := final }

/-- The generate-button body (lines 163-212): build the full table, derive
the exports from it, then sample groups and dissolve for the visualization
only (`none` when the sampled frame is empty, line 208). -/
def runApp (df : DataFrame) (zipc grpc : String) (includeCols? : Option (List String))
    (zcta : List BRow) (seed : List Nat) :
    Except PipeError (Artifacts × Option (List Row)) :=
  (create_full_geographic_data df zipc grpc includeCols? zcta).map (fun final =>
    let arts := exportsOf final
    let uniq := (final.map (fun r => getVal r grpc)).dedup
    let sel := sampled_groups seed uniq
    let sampled := final.filter (fun r => sel.contains (getVal r grpc))
    let vis := if sampled.isEmpty then none else some (dissolve grpc sampled)
    (arts, vis))

/-! ### Concrete tables used to instantiate the properties -/

/-- The spec's numeric-sum example: rows `{zip:"00501", x:3}` and
`{zip:"501", x:4}`, grouped/visualized by `x`, retaining `x`. -/
def exC2df : DataFrame :=
  ⟨["zip", "x"],
   [[("zip", Value.str "00501"), ("x", Value.int 3)],
    [("zip", Value.str "501"), ("x", Value.int 4)]]⟩

/-- One postal code carrying two distinct grouping values — separates
"one row per code" from "one row per (code, group) pair". -/
def exC5df : DataFrame :=
  ⟨["zip", "grp"],
   [[("zip", Value.str "00001"), ("grp", Value.str "A")],
    [("zip", Value.str "00001"), ("grp", Value.str "B")]]⟩

/-- Two enriched rows of one group whose text column holds "A" then "B". -/
def exC6 : List Row :=
  [[("g", Value.str "G"), ("name", Value.str "A"), ("geometry", Value.null)],
   [("g", Value.str "G"), ("name", Value.str "B"), ("geometry", Value.null)]]

/-- Six distinct groups, one more than the sampling cap. -/
def exGroups : List Value :=
  [Value.int 0, Value.int 1, Value.int 2, Value.int 3, Value.int 4, Value.int 5]

/-! ### Properties of postal-code normalization -/

theorem zfillList_length (w : Nat) (l : List Char) :
    (zfillList w l).length = max l.length w := by
  cases l with
  | nil =>
    simp [zfillList]
  | cons c rest =>
    rw [zfillList]
    by_cases h : w ≤ rest.length + 1
    · rw [if_pos h]
      simp only [List.length_cons]
      omega
    · rw [if_neg h]
      by_cases hc : c = '-' ∨ c = '+'
      · rw [if_pos hc]
        simp only [List.length_cons, List.length_append, List.length_replicate]
        omega
      · rw [if_neg hc]
        simp only [List.length_cons, List.length_append, List.length_replicate]
        omega

theorem zfillList_of_le (w : Nat) (l : List Char) (h : w ≤ l.length) :
    zfillList w l = l := by
  cases l with
  | nil =>
    simp at h
    simp [zfillList, h]
  | cons c rest =>
    simp only [List.length_cons] at h
    rw [zfillList, if_pos h]

theorem zfill_length (w : Nat) (s : String) :
    (zfill w s).length = max s.length w :=
  zfillList_length w s.data

theorem zfill_idem (w : Nat) (s : String) :
    zfill w (zfill w s) = zfill w s := by
  show String.mk (zfillList w (zfillList w s.data)) = String.mk (zfillList w s.data)
  rw [zfillList_of_le]
  rw [zfillList_length]
  exact le_max_right _ _

theorem normalizeVal_idem (v : Value) :
    normalizeVal (normalizeVal v) = normalizeVal v := by
  show Value.str (zfill 5 (zfill 5 (pyStr v))) = Value.str (zfill 5 (pyStr v))
  rw [zfill_idem]

/-- Claim C4: postal-code normalization is idempotent — normalizing an
already-normalized code returns it unchanged — and collapses differently
formatted representations of one code: "1" and "00001" normalize to the
same value, and "501" and "00501" normalize to the same value (hence fall
into the same group). -/
theorem normalization_idempotent_and_collapsing :
    (∀ v : Value, normalizeVal (normalizeVal v) = normalizeVal v) ∧
    normalizeVal (Value.str "1") = normalizeVal (Value.str "00001") ∧
    normalizeVal (Value.str "501") = normalizeVal (Value.str "00501") :=
  ⟨normalizeVal_idem, rfl, rfl⟩

/-- Counterexample to claim C9: the input "123456" (a six-character code)
normalizes to itself, whose length is 6, not 5 — `zfill` never truncates,
so the normalized join key is not always exactly 5 characters. -/
theorem normalize_length_counterexample :
    normalizeVal (Value.str "123456") = Value.str "123456" ∧
    ¬ ("123456".length = 5) := by
  constructor
  · rfl
  · decide

/-- Claim C9 (amended): the normalized postal code is a 5-character
left-zero-padded string whenever the input value's string form has at most
5 characters (longer string forms pass through unchanged and keep their
length), and two normalized codes are equal exactly when their zero-padded
string forms are equal. -/
theorem normalize_pads_short_codes (v : Value) (h : (pyStr v).length ≤ 5) :
    (zfill 5 (pyStr v)).length = 5 ∧
    ∀ w : Value, (normalizeVal v = normalizeVal w ↔
      zfill 5 (pyStr v) = zfill 5 (pyStr w)) := by
  constructor
  · rw [zfill_length]
    exact Nat.max_eq_right h
  · intro w
    unfold normalizeVal
    exact ⟨fun hv => by injection hv, fun hv => by rw [hv]⟩

theorem normalize_pads_short_codes_witness :
    ((pyStr (Value.str "501")).length ≤ 5) ∧
    ((zfill 5 (pyStr (Value.str "501"))).length = 5 ∧
      ∀ w : Value, (normalizeVal (Value.str "501") = normalizeVal w ↔
        zfill 5 (pyStr (Value.str "501")) = zfill 5 (pyStr w))) :=
  ⟨by decide, normalize_pads_short_codes (Value.str "501") (by decide)⟩

/-! ### Row lookup helpers -/

theorem getVal_cons_self (c : String) (v : Value) (r : Row) :
    getVal ((c, v) :: r) c = v := by
  unfold getVal
  rw [List.find?_cons_of_pos _ (by simp)]

theorem getVal_cons_ne (a c : String) (v : Value) (r : Row) (h : a ≠ c) :
    getVal ((a, v) :: r) c = getVal r c := by
  unfold getVal
  rw [List.find?_cons_of_neg _ (by simp [h])]

theorem getVal_map_pair (F : String → Value) :
    ∀ (cols : List String) (c : String), c ∈ cols →
      getVal (cols.map (fun c2 => (c2, F c2))) c = F c := by
  intro cols
  induction cols with
  | nil => intro c hc; cases hc
  | cons a rest ih =>
    intro c hc
    rw [List.map_cons]
    by_cases h : a = c
    · subst h
      exact getVal_cons_self a (F a) _
    · rw [getVal_cons_ne a c (F a) _ h]
      exact ih c (by cases hc with | head => exact absurd rfl h | tail _ hm => exact hm)

theorem key_mem_of_getVal_ne_null (r : Row) (c : String) (h : getVal r c ≠ .null) :
    c ∈ r.map Prod.fst := by
  unfold getVal at h
  cases hf : r.find? (fun p => p.1 = c) with
  | none => rw [hf] at h; exact absurd rfl h
  | some p =>
    have hp : p.1 = c := by simpa using List.find?_some hf
    exact hp ▸ List.mem_map_of_mem Prod.fst (List.mem_of_find?_eq_some hf)

theorem getVal_setVal (r : Row) (c : String) (v : Value) (h : c ∈ r.map Prod.fst) :
    getVal (setVal r c v) c = v := by
  induction r with
  | nil => cases h
  | cons p rest ih =>
    unfold setVal
    rw [List.map_cons]
    by_cases hp : p.1 = c
    · rw [if_pos hp]
      exact getVal_cons_self c v _
    · rw [if_neg hp]
      have hm : c ∈ rest.map Prod.fst := by
        rw [List.map_cons] at h
        cases h with
        | head => exact absurd rfl hp
        | tail _ hm => exact hm
      rw [getVal_cons_ne p.1 c p.2 _ hp]
      exact ih hm

theorem isNull_false_iff (v : Value) : v.isNull = false ↔ v ≠ .null := by
  cases v <;> simp [Value.isNull]

/-! ### Aggregation: shared structure lemmas -/

theorem survivors_zip_ne_null (df : DataFrame) (zipc grpc : String) (r : Row)
    (hr : r ∈ survivors df zipc grpc) : getVal r zipc ≠ .null := by
  have := (List.mem_filter.mp hr).2
  simp only [Bool.and_eq_true, Bool.not_eq_true'] at this
  exact (isNull_false_iff _).mp this.1

theorem clean_zip_map (df : DataFrame) (zipc grpc : String) :
    (cleanRows df zipc grpc).map (fun r => getVal r zipc)
      = (survivors df zipc grpc).map (fun r => normalizeVal (getVal r zipc)) := by
  unfold cleanRows
  rw [List.map_map]
  apply List.map_congr_left
  intro r hr
  exact getVal_setVal r zipc _
    (key_mem_of_getVal_ne_null r zipc (survivors_zip_ne_null df zipc grpc r hr))

theorem dedup_map_inj {α β : Type} [DecidableEq α] [DecidableEq β] (f : α → β)
    (hf : ∀ a b, f a = f b → a = b) :
    ∀ l : List α, (l.map f).dedup = l.dedup.map f := by
  intro l
  induction l with
  | nil => simp
  | cons a t ih =>
    rw [List.map_cons]
    by_cases h : a ∈ t
    · rw [List.dedup_cons_of_mem (List.mem_map_of_mem f h), List.dedup_cons_of_mem h, ih]
    · have hfm : f a ∉ t.map f := by
        intro hm
        rcases List.mem_map.mp hm with ⟨b, hb, he⟩
        exact h (hf b a he ▸ hb)
      rw [List.dedup_cons_of_not_mem hfm, List.dedup_cons_of_not_mem h, List.map_cons, ih]

theorem groupbyAgg_zip_map (rows : List Row) (key : String)
    (aggd : List (String × AggFunc)) :
    (groupbyAgg rows key aggd).map (fun r => getVal r key)
      = (rows.map (fun r => getVal r key)).dedup := by
  unfold groupbyAgg
  rw [List.map_map]
  have : ∀ k ∈ (rows.map (fun r => getVal r key)).dedup,
      getVal ((key, k) :: aggd.map (fun cf =>
        (cf.1, applyAgg cf.2
          ((rows.filter (fun r => getVal r key == k)).map (fun r => getVal r cf.1))))) key
        = k := fun k _ => getVal_cons_self key k _
  calc ((rows.map (fun r => getVal r key)).dedup).map _
      = ((rows.map (fun r => getVal r key)).dedup).map id :=
        List.map_congr_left (fun k hk => this k hk)
    _ = (rows.map (fun r => getVal r key)).dedup := List.map_id _

theorem dropDupPairs_zip_map (rows : List Row) (zipc : String) :
    (dropDupPairs rows zipc zipc).map (fun r => getVal r zipc)
      = (rows.map (fun r => getVal r zipc)).dedup := by
  unfold dropDupPairs
  have hcomp : rows.map (fun r => [(zipc, getVal r zipc), (zipc, getVal r zipc)])
      = (rows.map (fun r => getVal r zipc)).map (fun v => [(zipc, v), (zipc, v)]) := by
    rw [List.map_map]
    rfl
  have hinj : ∀ a b : Value, [(zipc, a), (zipc, a)] = [(zipc, b), (zipc, b)] → a = b := by
    intro a b h
    simp only [List.cons.injEq, Prod.mk.injEq] at h
    exact h.1.2
  rw [hcomp, dedup_map_inj (fun v => [(zipc, v), (zipc, v)]) hinj]
  rw [List.map_map]
  calc ((rows.map (fun r => getVal r zipc)).dedup).map _
      = ((rows.map (fun r => getVal r zipc)).dedup).map id :=
        List.map_congr_left (fun v _ => getVal_cons_self zipc v _)
    _ = (rows.map (fun r => getVal r zipc)).dedup := List.map_id _

theorem aggCols_empty_grp_eq_zip (zipc grpc : String) (includeCols : List String)
    (h : aggCols zipc grpc includeCols = []) : grpc = zipc := by
  unfold aggCols at h
  set cta0 := includeCols.filter (fun c => c ≠ grpc) with hc0
  have hmem : grpc ∈ (if grpc ∈ cta0 then cta0 else cta0 ++ [grpc]) := by
    by_cases hg : grpc ∈ cta0
    · rw [if_pos hg]; exact hg
    · rw [if_neg hg]; exact List.mem_append_right _ (List.mem_singleton_self grpc)
  have hd : grpc ∈ (if grpc ∈ cta0 then cta0 else cta0 ++ [grpc]).dedup :=
    List.mem_dedup.mpr hmem
  have := List.filter_eq_nil_iff.mp h grpc hd
  simpa using this

theorem aggregate_zip_spec (df : DataFrame) (zipc grpc : String) (includeCols : List String)
    (h1 : zipc ∈ df.columns) (h2 : grpc ∈ df.columns) :
    ∃ rows, aggregate_zip_data df zipc grpc (some includeCols) = .ok rows ∧
      rows.map (fun r => getVal r zipc)
        = ((survivors df zipc grpc).map (fun r => normalizeVal (getVal r zipc))).dedup := by
  have hcols : ¬(zipc ∉ df.columns ∨ grpc ∉ df.columns) := by
    simp [h1, h2]
  unfold aggregate_zip_data
  rw [if_neg hcols]
  by_cases he : (buildAggDict df zipc grpc includeCols).isEmpty
  · have hgz : grpc = zipc := by
      apply aggCols_empty_grp_eq_zip zipc grpc includeCols
      have : buildAggDict df zipc grpc includeCols = [] := List.isEmpty_iff.mp he
      unfold buildAggDict at this
      exact List.map_eq_nil_iff.mp this
    refine ⟨dropDupPairs (cleanRows df zipc grpc) zipc grpc, ?_, ?_⟩
    · simp only [he, if_true]
    · rw [hgz, dropDupPairs_zip_map, clean_zip_map]
  · refine ⟨groupbyAgg (cleanRows df zipc grpc) zipc (buildAggDict df zipc grpc includeCols),
      ?_, ?_⟩
    · simp only [he, if_false, Bool.false_eq_true]
    · rw [groupbyAgg_zip_map, clean_zip_map]

/-- Claim C1: for every input table whose schema has the two required
columns, the aggregation step returns one AggregatedRow per distinct
normalized postal code of the surviving (non-null code and grouping value)
records — the output's postal-code column is exactly the deduplicated list
of normalized surviving codes, so the row count equals the distinct-code
count. -/
theorem agg_row_per_distinct_code (df : DataFrame) (zipc grpc : String)
    (includeCols : List String) (h1 : zipc ∈ df.columns) (h2 : grpc ∈ df.columns) :
    ∃ rows, aggregate_zip_data df zipc grpc (some includeCols) = .ok rows ∧
      rows.map (fun r => getVal r zipc)
        = ((survivors df zipc grpc).map (fun r => normalizeVal (getVal r zipc))).dedup ∧
      rows.length
        = ((survivors df zipc grpc).map (fun r => normalizeVal (getVal r zipc))).dedup.length := by
  obtain ⟨rows, hok, hmap⟩ := aggregate_zip_spec df zipc grpc includeCols h1 h2
  refine ⟨rows, hok, hmap, ?_⟩
  rw [← hmap, List.length_map]

theorem agg_row_per_distinct_code_witness :
    ("zip" ∈ exC2df.columns) ∧ ("x" ∈ exC2df.columns) ∧
    (∃ rows, aggregate_zip_data exC2df "zip" "x" (some ["x"]) = .ok rows ∧
      rows.map (fun r => getVal r "zip")
        = ((survivors exC2df "zip" "x").map (fun r => normalizeVal (getVal r "zip"))).dedup ∧
      rows.length
        = ((survivors exC2df "zip" "x").map
            (fun r => normalizeVal (getVal r "zip"))).dedup.length) :=
  ⟨by decide, by decide,
    agg_row_per_distinct_code exC2df "zip" "x" ["x"] (by decide) (by decide)⟩

/-- Claim C2: the reduction rule is resolved per retained column before
grouping — a column of numeric dtype reduces by sum, every other retained
column (the grouping column included) by first value — and each output
row's cell for a retained column is that rule applied to the column's
values within its postal-code group; in particular the spec's example rows
`{zip:"00501", x:3}` and `{zip:"501", x:4}` aggregate to the single row
`{zip:"00501", x:7}`. -/
theorem per_column_reduction_rule (df : DataFrame) (zipc grpc : String)
    (includeCols : List String) (h1 : zipc ∈ df.columns) (h2 : grpc ∈ df.columns)
    (hne : buildAggDict df zipc grpc includeCols ≠ []) :
    (∃ rows, aggregate_zip_data df zipc grpc (some includeCols) = .ok rows ∧
      ∀ r ∈ rows, ∀ c ∈ aggCols zipc grpc includeCols,
        getVal r c = applyAgg
          (if isNumericDtype df zipc c then AggFunc.sum else AggFunc.first)
          (((cleanRows df zipc grpc).filter
              (fun r2 => getVal r2 zipc == getVal r zipc)).map (fun r2 => getVal r2 c))) ∧
    aggregate_zip_data exC2df "zip" "x" (some ["x"])
      = .ok [[("zip", Value.str "00501"), ("x", Value.int 7)]] := by
  constructor
  · have hcols : ¬(zipc ∉ df.columns ∨ grpc ∉ df.columns) := by
      simp [h1, h2]
    have he : ¬((buildAggDict df zipc grpc includeCols).isEmpty = true) := by
      simp [List.isEmpty_iff, hne]
    refine ⟨groupbyAgg (cleanRows df zipc grpc) zipc (buildAggDict df zipc grpc includeCols),
      ?_, ?_⟩
    · unfold aggregate_zip_data
      rw [if_neg hcols]
      simp only [he, if_false, Bool.false_eq_true]
    · intro r hr c hc
      unfold groupbyAgg at hr
      rcases List.mem_map.mp hr with ⟨k, hk, rfl⟩
      have hcz : c ≠ zipc := by
        have hc2 := hc
        unfold aggCols at hc2
        simp only [List.mem_filter, decide_eq_true_eq] at hc2
        exact hc2.2
      rw [getVal_cons_self]
      rw [getVal_cons_ne zipc c k _ (Ne.symm hcz)]
      have hmap : (buildAggDict df zipc grpc includeCols).map (fun cf =>
          (cf.1, applyAgg cf.2 (((cleanRows df zipc grpc).filter
            (fun r2 => getVal r2 zipc == k)).map (fun r2 => getVal r2 cf.1))))
          = (aggCols zipc grpc includeCols).map (fun c2 =>
            (c2, applyAgg (colRule df zipc c2) (((cleanRows df zipc grpc).filter
              (fun r2 => getVal r2 zipc == k)).map (fun r2 => getVal r2 c2)))) := by
        unfold buildAggDict
        rw [List.map_map]
        rfl
      rw [hmap]
      rw [getVal_map_pair (fun c2 => applyAgg (colRule df zipc c2)
        (((cleanRows df zipc grpc).filter
          (fun r2 => getVal r2 zipc == k)).map (fun r2 => getVal r2 c2)))
        (aggCols zipc grpc includeCols) c hc]
      rfl
  · rfl

theorem per_column_reduction_rule_witness :
    ("zip" ∈ exC2df.columns) ∧ ("x" ∈ exC2df.columns) ∧
    (buildAggDict exC2df "zip" "x" ["x"] ≠ []) ∧
    ((∃ rows, aggregate_zip_data exC2df "zip" "x" (some ["x"]) = .ok rows ∧
      ∀ r ∈ rows, ∀ c ∈ aggCols "zip" "x" ["x"],
        getVal r c = applyAgg
          (if isNumericDtype exC2df "zip" c then AggFunc.sum else AggFunc.first)
          (((cleanRows exC2df "zip" "x").filter
              (fun r2 => getVal r2 "zip" == getVal r "zip")).map (fun r2 => getVal r2 c))) ∧
    aggregate_zip_data exC2df "zip" "x" (some ["x"])
      = .ok [[("zip", Value.str "00501"), ("x", Value.int 7)]]) :=
  ⟨by decide, by decide, by decide,
    per_column_reduction_rule exC2df "zip" "x" ["x"] (by decide) (by decide) (by decide)⟩

/-- Counterexample to claim C5: with an empty retain-list the aggregator
does NOT emit one row per distinct (postal code, grouping value) pair — on
a table whose single postal code carries two grouping values it emits one
row, while the distinct pairs number two.  (The grouping column is appended
to `columns_to_aggregate`, so `agg_dict` is non-empty and the
`drop_duplicates` fallback is not reached.) -/
theorem empty_retain_list_counterexample :
    (∃ rows, aggregate_zip_data exC5df "zip" "grp" (some []) = .ok rows ∧
      rows.length = 1) ∧
    ((survivors exC5df "zip" "grp").map
        (fun r => (normalizeVal (getVal r "zip"), getVal r "grp"))).dedup.length = 2 := by
  exact ⟨⟨_, rfl, rfl⟩, rfl⟩

/-- Claim C5 (amended): with an empty retain-list the aggregator still
groups by postal code — `agg_dict` holds exactly the grouping column with
its per-column rule, so the output has one row per distinct normalized
postal code (with the grouping value reduced by that rule), not one row
per distinct (code, group) pair; the distinct-pair fallback is reached
only when the grouping column coincides with the postal-code column. -/
theorem empty_retain_list_groups_by_code (df : DataFrame) (zipc grpc : String)
    (h1 : zipc ∈ df.columns) (h2 : grpc ∈ df.columns) (h3 : grpc ≠ zipc) :
    aggregate_zip_data df zipc grpc (some [])
      = .ok (groupbyAgg (cleanRows df zipc grpc) zipc [(grpc, colRule df zipc grpc)]) ∧
    ∃ rows, aggregate_zip_data df zipc grpc (some []) = .ok rows ∧
      rows.length = ((survivors df zipc grpc).map
        (fun r => normalizeVal (getVal r zipc))).dedup.length := by
  have hb : buildAggDict df zipc grpc [] = [(grpc, colRule df zipc grpc)] := by
    unfold buildAggDict aggCols
    simp [h3]
  constructor
  · have hcols : ¬(zipc ∉ df.columns ∨ grpc ∉ df.columns) := by
      simp [h1, h2]
    unfold aggregate_zip_data
    rw [if_neg hcols]
    simp only [hb]
    rfl
  · obtain ⟨rows, hok, hmap⟩ := aggregate_zip_spec df zipc grpc [] h1 h2
    refine ⟨rows, hok, ?_⟩
    rw [← hmap, List.length_map]

theorem empty_retain_list_groups_by_code_witness :
    ("zip" ∈ exC5df.columns) ∧ ("grp" ∈ exC5df.columns) ∧ ("grp" ≠ "zip") ∧
    (aggregate_zip_data exC5df "zip" "grp" (some [])
      = .ok (groupbyAgg (cleanRows exC5df "zip" "grp") "zip"
          [("grp", colRule exC5df "zip" "grp")]) ∧
    ∃ rows, aggregate_zip_data exC5df "zip" "grp" (some []) = .ok rows ∧
      rows.length = ((survivors exC5df "zip" "grp").map
        (fun r => normalizeVal (getVal r "zip"))).dedup.length) :=
  ⟨by decide, by decide, by decide,
    empty_retain_list_groups_by_code exC5df "zip" "grp" (by decide) (by decide) (by decide)⟩

/-! ### The geometry left join -/

theorem length_flatMap_one {α β : Type} (l : List α) (f : α → List β)
    (h : ∀ a ∈ l, (f a).length = 1) : (l.flatMap f).length = l.length := by
  induction l with
  | nil => simp
  | cons a t ih =>
    rw [List.flatMap_cons, List.length_append, h a (List.mem_cons_self a t),
      ih (fun b hb => h b (List.mem_cons_of_mem a hb))]
    simp [Nat.add_comm]

theorem length_le_one_of_nodup_all_eq {α : Type} :
    ∀ (l : List α), l.Nodup → (∀ x ∈ l, ∀ y ∈ l, x = y) → l.length ≤ 1
  | [], _, _ => by simp
  | [_], _, _ => by simp
  | x :: y :: t, hnd, hall => by
    exfalso
    have hxy : x = y := hall x (by simp) y (by simp)
    have hx : x ∉ y :: t := (List.nodup_cons.mp hnd).1
    cases hxy
    exact hx (List.mem_cons_self _ _)

/-- Claim C3: the geometry join is a left join — for every AggregatedRow
set and every boundary mapping (code keys pairwise distinct, the empty
mapping included), each AggregatedRow yields exactly one EnrichedRow, so
the merged row count equals the AggregatedRow count, and a row with no
matching boundary survives with its geometry set to null. -/
theorem geometry_left_join_preserves_count (zip_data : List Row) (zcta : List BRow)
    (key : String) (hnd : (zcta.map Prod.fst).Nodup) :
    (left_merge zip_data zcta key).length = zip_data.length ∧
    ∀ r ∈ zip_data, (∀ b ∈ zcta, Value.str b.1 ≠ getVal r key) →
      r ++ [("geometry", Value.null)] ∈ left_merge zip_data zcta key := by
  constructor
  · unfold left_merge
    apply length_flatMap_one
    intro r _
    dsimp only
    by_cases hms : (zcta.filter (fun b => Value.str b.1 == getVal r key)).isEmpty
    · rw [if_pos hms]
      rfl
    · rw [if_neg hms]
      rw [List.length_map]
      have hsub : ((zcta.filter (fun b => Value.str b.1 == getVal r key)).map Prod.fst).Nodup :=
        List.Nodup.sublist (List.Sublist.map Prod.fst (List.filter_sublist zcta)) hnd
      have hall : ∀ x ∈ (zcta.filter (fun b => Value.str b.1 == getVal r key)).map Prod.fst,
          ∀ y ∈ (zcta.filter (fun b => Value.str b.1 == getVal r key)).map Prod.fst,
            x = y := by
        intro x hx y hy
        rcases List.mem_map.mp hx with ⟨bx, hbx, rfl⟩
        rcases List.mem_map.mp hy with ⟨b2, hb2, rfl⟩
        have hex : Value.str bx.1 = getVal r key := by
          have := (List.mem_filter.mp hbx).2
          simpa using this
        have hey : Value.str b2.1 = getVal r key := by
          have := (List.mem_filter.mp hb2).2
          simpa using this
        have : Value.str bx.1 = Value.str b2.1 := hex.trans hey.symm
        injection this
      have hle := length_le_one_of_nodup_all_eq _ hsub hall
      rw [List.length_map] at hle
      have hpos : (zcta.filter (fun b => Value.str b.1 == getVal r key)).length ≠ 0 := by
        intro h0
        exact hms (List.isEmpty_iff.mpr (List.length_eq_zero.mp h0))
      omega
  · intro r hr hno
    unfold left_merge
    apply List.mem_flatMap.mpr
    refine ⟨r, hr, ?_⟩
    dsimp only
    have hms : (zcta.filter (fun b => Value.str b.1 == getVal r key)).isEmpty = true := by
      rw [List.isEmpty_iff]
      apply List.filter_eq_nil_iff.mpr
      intro b hb
      simp only [beq_iff_eq]
      exact hno b hb
    rw [if_pos hms]
    exact List.mem_singleton_self _

theorem geometry_left_join_preserves_count_witness :
    ((([] : List BRow).map Prod.fst).Nodup) ∧
    ((left_merge [[("ZCTA5CE20", Value.str "00501")]] [] "ZCTA5CE20").length
        = [[("ZCTA5CE20", Value.str "00501")]].length ∧
      ∀ r ∈ [[("ZCTA5CE20", Value.str "00501")]],
        (∀ b ∈ ([] : List BRow), Value.str b.1 ≠ getVal r "ZCTA5CE20") →
          r ++ [("geometry", Value.null)]
            ∈ left_merge [[("ZCTA5CE20", Value.str "00501")]] [] "ZCTA5CE20") :=
  ⟨by decide,
    geometry_left_join_preserves_count [[("ZCTA5CE20", Value.str "00501")]] [] "ZCTA5CE20"
      (by decide)⟩

/-! ### The dissolve step -/

/-- Counterexample to claim C6: the dissolve step does NOT reduce
non-numeric attributes by first-seen value — `aggfunc='sum'` is applied
uniformly, so a text column holding "A" then "B" within one group
dissolves to the concatenation "AB", not to the first value "A". -/
theorem dissolve_text_concat_counterexample :
    dissolve "g" exC6
      = [[("g", Value.str "G"), ("geometry", Value.null), ("name", Value.str "AB")]] ∧
    Value.str "AB" ≠ Value.str "A" := by
  exact ⟨rfl, by decide⟩

/-- Claim C6 (amended): the dissolve step produces exactly one DissolvedRow
per grouping value present in the sampled subset (equivalently, per sampled
grouping value, since every sampled value has at least one row and every
row's value is sampled), and EVERY non-geometry attribute — numeric and
non-numeric alike — reduces by pandas `sum` over its contributing rows:
numeric attributes are summed (nulls skipped) and text attributes are
concatenated, rather than following the aggregator's numeric-sum /
first-value policy. -/
theorem dissolve_sum_policy (grpc : String) (rows : List Row) (ks : List Value)
    (hnd : ks.Nodup)
    (hmem : ∀ r ∈ rows, getVal r grpc ∈ ks)
    (hcov : ∀ k ∈ ks, ∃ r ∈ rows, getVal r grpc = k) :
    (dissolve grpc rows).length = ks.length ∧
    ∀ q ∈ dissolve grpc rows, ∀ c ∈ dissolveCols rows grpc,
      getVal q c = applyAgg AggFunc.sum
        ((rows.filter (fun r => getVal r grpc == getVal q grpc)).map
          (fun r => getVal r c)) := by
  constructor
  · unfold dissolve
    rw [List.length_map]
    have hnd2 : ((rows.map (fun r => getVal r grpc)).dedup).Nodup := List.nodup_dedup _
    have hext : ((rows.map (fun r => getVal r grpc)).dedup).toFinset = ks.toFinset := by
      ext x
      simp only [List.mem_toFinset, List.mem_dedup, List.mem_map]
      constructor
      · rintro ⟨r, hr, rfl⟩
        exact hmem r hr
      · intro hx
        rcases hcov x hx with ⟨r, hr, he⟩
        exact ⟨r, hr, he⟩
    have hc1 := List.toFinset_card_of_nodup hnd2
    have hc2 := List.toFinset_card_of_nodup hnd
    rw [hext] at hc1
    omega
  · intro q hq c hc
    unfold dissolve at hq
    rcases List.mem_map.mp hq with ⟨k, hk, rfl⟩
    have hcg : c ≠ grpc ∧ c ≠ "geometry" := by
      unfold dissolveCols at hc
      have := (List.mem_filter.mp hc).2
      simp only [Bool.and_eq_true, decide_eq_true_eq] at this
      exact this
    dsimp only
    rw [getVal_cons_self]
    rw [getVal_cons_ne grpc c k _ (Ne.symm hcg.1)]
    rw [getVal_cons_ne "geometry" c _ _ (Ne.symm hcg.2)]
    rw [getVal_map_pair (fun c2 => applyAgg AggFunc.sum
      ((rows.filter (fun r => getVal r grpc == k)).map (fun r => getVal r c2)))
      (dissolveCols rows grpc) c hc]

theorem dissolve_sum_policy_witness :
    ([Value.str "G"].Nodup) ∧
    (∀ r ∈ exC6, getVal r "g" ∈ [Value.str "G"]) ∧
    (∀ k ∈ [Value.str "G"], ∃ r ∈ exC6, getVal r "g" = k) ∧
    ((dissolve "g" exC6).length = [Value.str "G"].length ∧
      ∀ q ∈ dissolve "g" exC6, ∀ c ∈ dissolveCols exC6 "g",
        getVal q c = applyAgg AggFunc.sum
          ((exC6.filter (fun r => getVal r "g" == getVal q "g")).map
            (fun r => getVal r c))) :=
  ⟨by decide, by decide, by decide,
    dissolve_sum_policy "g" exC6 [Value.str "G"] (by decide) (by decide) (by decide)⟩

/-! ### The sampler -/

theorem chooseNoReplace_length : ∀ (seed : List Nat) (n : Nat) (l : List Value),
    (chooseNoReplace seed n l).length = min n l.length := by
  intro seed n
  induction n generalizing seed with
  | zero =>
    intro l
    simp [chooseNoReplace]
  | succ m ih =>
    intro l
    cases l with
    | nil => simp [chooseNoReplace]
    | cons x xs =>
      rw [chooseNoReplace]
      dsimp only
      simp only [List.length_cons]
      rw [ih seed.tail]
      have hlen : ((x :: xs).eraseIdx (seed.headD 0 % (xs.length + 1))).length
          = xs.length := by
        rw [List.length_eraseIdx]
        simp only [List.length_cons]
        rw [if_pos (Nat.mod_lt _ (show 0 < xs.length + 1 by omega))]
        omega
      rw [hlen]
      omega

theorem chooseNoReplace_subset : ∀ (seed : List Nat) (n : Nat) (l : List Value),
    ∀ x ∈ chooseNoReplace seed n l, x ∈ l := by
  intro seed n
  induction n generalizing seed with
  | zero =>
    intro l x hx
    simp [chooseNoReplace] at hx
  | succ m ih =>
    intro l
    cases l with
    | nil =>
      intro x hx
      simp [chooseNoReplace] at hx
    | cons a xs =>
      intro x hx
      rw [chooseNoReplace] at hx
      rcases List.mem_cons.mp hx with h | h
      · rw [h]
        exact List.get_mem _ _ _
      · exact (List.eraseIdx_sublist _ _).subset (ih seed.tail _ x h)

theorem get_not_mem_eraseIdx {α : Type} :
    ∀ (l : List α) (i : Nat) (h : i < l.length), l.Nodup → l.get ⟨i, h⟩ ∉ l.eraseIdx i := by
  intro l
  induction l with
  | nil =>
    intro i h
    exact absurd h (Nat.not_lt_zero i)
  | cons x xs ih =>
    intro i h hnd
    cases i with
    | zero =>
      rw [List.eraseIdx_cons_zero]
      exact (List.nodup_cons.mp hnd).1
    | succ j =>
      rw [List.eraseIdx_cons_succ]
      intro hmem
      have hj : j < xs.length := by
        simp only [List.length_cons] at h
        omega
      rcases List.mem_cons.mp hmem with he | hm
      · have hx : xs.get ⟨j, hj⟩ ∈ xs := List.get_mem _ _ _
        have he2 : xs.get ⟨j, hj⟩ = x := he
        exact (List.nodup_cons.mp hnd).1 (he2 ▸ hx)
      · exact ih j hj (List.nodup_cons.mp hnd).2 hm

theorem chooseNoReplace_nodup : ∀ (seed : List Nat) (n : Nat) (l : List Value),
    l.Nodup → (chooseNoReplace seed n l).Nodup := by
  intro seed n
  induction n generalizing seed with
  | zero =>
    intro l _
    simp [chooseNoReplace]
  | succ m ih =>
    intro l hnd
    cases l with
    | nil => simp [chooseNoReplace]
    | cons x xs =>
      rw [chooseNoReplace]
      apply List.nodup_cons.mpr
      constructor
      · intro hmem
        exact get_not_mem_eraseIdx (x :: xs) _ _ hnd
          (chooseNoReplace_subset seed.tail m _ _ hmem)
      · exact ih seed.tail _ (List.Nodup.sublist (List.eraseIdx_sublist _ _) hnd)

/-- Claim C7: for every list of distinct grouping values and every injected
random source, with the cap fixed at 5: at most 5 distinct values are
returned unchanged in full, and more than 5 distinct values yield exactly
5 sampled values, each a member of the original list, with no duplicates. -/
theorem sampler_cap_five (seed : List Nat) (groups : List Value) (hnd : groups.Nodup) :
    (groups.length ≤ 5 → sampled_groups seed groups = groups) ∧
    (5 < groups.length →
      (sampled_groups seed groups).length = 5 ∧
      (∀ x ∈ sampled_groups seed groups, x ∈ groups) ∧
      (sampled_groups seed groups).Nodup) := by
  constructor
  · intro hle
    unfold sampled_groups
    rw [if_neg (by omega)]
  · intro hgt
    unfold sampled_groups
    rw [if_pos hgt]
    refine ⟨?_, ?_, ?_⟩
    · rw [chooseNoReplace_length, Nat.min_eq_left (by omega)]
    · exact chooseNoReplace_subset seed 5 groups
    · exact chooseNoReplace_nodup seed 5 groups hnd

theorem sampler_cap_five_witness :
    exGroups.Nodup ∧
    ((exGroups.length ≤ 5 → sampled_groups [0] exGroups = exGroups) ∧
     (5 < exGroups.length →
       (sampled_groups [0] exGroups).length = 5 ∧
       (∀ x ∈ sampled_groups [0] exGroups, x ∈ exGroups) ∧
       (sampled_groups [0] exGroups).Nodup)) :=
  ⟨by decide, sampler_cap_five [0] exGroups (by decide)⟩

/-! ### Frame effect of sampling on the exports -/

/-- Claim C8: sampling and dissolving never modify or filter the exported
row set — the attribute table, geometry document and geometry archive are
computed from the full enriched table before sampling, so they are
identical for any two random sources, and for every random source they
equal the exports of the unsampled pipeline output. -/
theorem exports_independent_of_sampling (df : DataFrame) (zipc grpc : String)
    (includeCols? : Option (List String)) (zcta : List BRow) (s1 s2 : List Nat) :
    (runApp df zipc grpc includeCols? zcta s1).map Prod.fst
      = (runApp df zipc grpc includeCols? zcta s2).map Prod.fst ∧
    ∀ s : List Nat, (runApp df zipc grpc includeCols? zcta s).map Prod.fst
      = (create_full_geographic_data df zipc grpc includeCols? zcta).map exportsOf := by
  have key : ∀ s : List Nat, (runApp df zipc grpc includeCols? zcta s).map Prod.fst
      = (create_full_geographic_data df zipc grpc includeCols? zcta).map exportsOf := by
    intro s
    unfold runApp
    cases create_full_geographic_data df zipc grpc includeCols? zcta with
    | error e => rfl
    | ok final => rfl
  exact ⟨(key s1).trans (key s2).symm, key⟩

/-! ### The None retain-list precondition -/

/-- Claim C10: although the docstring declares `include_columns` optional,
calling the pipeline with `include_columns = None` on a table that has the
two required columns fails with the Python `TypeError` raised by iterating
`None`, before any aggregation output is produced — the function requires
an actual list. -/
theorem none_retain_list_errors (df : DataFrame) (zipc grpc : String) (zcta : List BRow)
    (h1 : zipc ∈ df.columns) (h2 : grpc ∈ df.columns) :
    create_full_geographic_data df zipc grpc none zcta = .error .typeError := by
  have hcols : ¬(zipc ∉ df.columns ∨ grpc ∉ df.columns) := by
    simp [h1, h2]
  unfold create_full_geographic_data aggregate_zip_data
  rw [if_neg hcols]
  rfl

theorem none_retain_list_errors_witness :
    ("zip" ∈ exC2df.columns) ∧ ("x" ∈ exC2df.columns) ∧
    create_full_geographic_data exC2df "zip" "x" none [] = .error .typeError :=
  ⟨by decide, by decide, none_retain_list_errors exC2df "zip" "x" [] (by decide) (by decide)⟩

end ZipApp
